import Mathlib

/-!
Verification development for the freehand drawing canvas engine of the
Procastify study app.  The definitions below are a shallow embedding of
`src/components/canvas/types.ts` (shape model and `SelectionController`)
and of the layout pass of `convertSpecToShapes` from the diagram service.
JavaScript numbers are modelled as exact rationals (`ℚ`); the in-place
mutation of the controller is modelled as explicit state passing on a
`SelectionController` record.  `JSON.parse(JSON.stringify(s))` is a deep
copy of a plain record, hence the identity on the value `s` here.
-/

namespace Canvas

/-- `Point` from `types.ts`: `{ x: number; y: number }`. -/
structure Point where
  x : ℚ
  y : ℚ
deriving DecidableEq

/-- `Bounds` from `types.ts`: `{ x, y, width, height }`. -/
structure Bounds where
  x : ℚ
  y : ℚ
  width : ℚ
  height : ℚ
deriving DecidableEq

/-- `StrokeStyle = "solid" | "dashed" | "dotted"`. -/
inductive StrokeStyle where
  | solid | dashed | dotted
deriving DecidableEq

/-- `RoughStyle = 0 | 1 | 2`. -/
inductive RoughStyle where
  | r0 | r1 | r2
deriving DecidableEq

/-- `FillStyle = "hachure" | "solid" | "zigzag" | "cross-hatch" | "dots"`. -/
inductive FillStyle where
  | hachure | solid | zigzag | crossHatch | dots
deriving DecidableEq

/-- `StrokeWidth = 1 | 2 | 4`. -/
inductive StrokeWidth where
  | w1 | w2 | w4
deriving DecidableEq

/-- `StrokeEdge = "sharp" | "round"`. -/
inductive StrokeEdge where
  | sharp | round
deriving DecidableEq

/-- `FontFamily = "hand-drawn" | "normal" | "code"`. -/
inductive FontFamily where
  | handDrawn | normal | code
deriving DecidableEq

/-- `FontSize = "Small" | "Medium" | "Large"`. -/
inductive FontSize where
  | small | medium | large
deriving DecidableEq

/-- `TextAlign = "left" | "center" | "right"`. -/
inductive TextAlign where
  | left | center | right
deriving DecidableEq

/-- `ShapeBase` from `types.ts`. -/
structure ShapeBase where
  id : String
  x : ℚ
  y : ℚ
  strokeWidth : StrokeWidth
  strokeFill : String
  strokeEdge : Option StrokeEdge
deriving DecidableEq

/-- Tag distinguishing the `"rectangle"` and `"diamond"` legs of the
rectangle-like variant of the `Shape` union. -/
inductive RectKind where
  | rectangle | diamond
deriving DecidableEq

/-- Tag distinguishing the `"line"` and `"arrow"` legs of the line-like
variant of the `Shape` union. -/
inductive LineKind where
  | line | arrow
deriving DecidableEq

/-- The `Shape` discriminated union from `types.ts`, one constructor per
variant group exactly as in the source. -/
inductive Shape where
  | rect (kind : RectKind) (base : ShapeBase) (width height : ℚ)
      (bgFill : String) (rounded : StrokeEdge) (strokeStyle : StrokeStyle)
      (roughStyle : RoughStyle) (fillStyle : FillStyle)
  | ellipse (base : ShapeBase) (radX radY : ℚ) (bgFill : String)
      (strokeStyle : StrokeStyle) (roughStyle : RoughStyle) (fillStyle : FillStyle)
  | lineArrow (kind : LineKind) (base : ShapeBase) (toX toY : ℚ)
      (strokeStyle : StrokeStyle) (roughStyle : RoughStyle)
  | freeDraw (id : String) (points : List Point) (strokeFill : String)
      (bgFill : String) (strokeWidth : StrokeWidth) (strokeStyle : StrokeStyle)
      (fillStyle : FillStyle)
  | text (id : String) (x y width height : ℚ) (content : String)
      (fontSize : FontSize) (fontFamily : FontFamily) (textAlign : TextAlign)
      (strokeFill : String) (strokeWidth : StrokeWidth)
      (strokeEdge : Option StrokeEdge) (bgFill : Option String)
deriving DecidableEq

/-- `SelectionController.getShapeBounds`, translated case by case from the
source.  For `free-draw` the source folds `Math.min`/`Math.max` over all
points starting from `±Infinity` behind an emptiness guard; with the guard
this equals folding from the first point's coordinates. -/
def getShapeBounds : Shape → Bounds
  | .rect _ base width height _ _ _ _ _ =>
      let x := if width ≥ 0 then base.x else base.x + width
      let y := if height ≥ 0 then base.y else base.y + height
      ⟨x, y, |width|, |height|⟩
  | .ellipse base radX radY _ _ _ _ =>
      ⟨base.x - radX, base.y - radY, radX * 2, radY * 2⟩
  | .lineArrow _ base toX toY _ _ =>
      let minX := min base.x toX
      let maxX := max base.x toX
      let minY := min base.y toY
      let maxY := max base.y toY
      ⟨minX, minY, maxX - minX, maxY - minY⟩
  | .freeDraw _ points _ _ _ _ _ =>
      match points with
      | [] => ⟨0, 0, 0, 0⟩
      | p :: ps =>
          let minX := ps.foldl (fun m q => min m q.x) p.x
          let minY := ps.foldl (fun m q => min m q.y) p.y
          let maxX := ps.foldl (fun m q => max m q.x) p.x
          let maxY := ps.foldl (fun m q => max m q.y) p.y
          ⟨minX, minY, maxX - minX, maxY - minY⟩
  | .text _ x y _ _ _ _ _ _ _ _ _ _ =>
      ⟨x, y, 100, 20⟩

/-! ### Geometry utilities

`SelectionController` imports `distance`, `distanceToSegment` and
`isPointInRectangle` from `./utils`, a file whose source is not part of
this repository snapshot; they are modelled from the spec (§4.1).  Every
use of `distance`/`distanceToSegment` in the controller is a comparison
against a positive threshold, and for a threshold `t > 0` the Euclidean
comparison `dist < t` is equivalent to the exact rational comparison
`dist² < t²`, so the distances are embedded by their squares. -/

/-- Squared Euclidean distance between two points.  `distSq a b < t ^ 2`
embeds the spec's `distance(a, b) < t` for a positive threshold `t`. -/
def distSq (a b : Point) : ℚ :=
  (a.x - b.x) ^ 2 + (a.y - b.y) ^ 2

/-- Modelled from the spec: `distanceToSegment(p, a, b)` is the shortest
distance from `p` to the segment `a–b`, clamping the projection parameter
to `[0,1]` and returning `distance(p, a)` in the degenerate case `a == b`.
This is its square; `distToSegSq p a b < t ^ 2` embeds
`distanceToSegment(p, a, b) < t` for a positive threshold `t`. -/
def distToSegSq (p a b : Point) : ℚ :=
  let dx := b.x - a.x
  let dy := b.y - a.y
  let len2 := dx ^ 2 + dy ^ 2
  if len2 = 0 then distSq p a
  else
    let t := ((p.x - a.x) * dx + (p.y - a.y) * dy) / len2
    let tc := max 0 (min 1 t)
    distSq p ⟨a.x + tc * dx, a.y + tc * dy⟩

/-- Modelled from the spec: `isPointInRectangle(x, y, rx, ry, rw, rh)` is a
containment test for a normalized (non-negative extent) rectangle. -/
def isPointInRectangle (x y rx ry rw rh : ℚ) : Bool :=
  decide (rx ≤ x ∧ x ≤ rx + rw ∧ ry ≤ y ∧ y ≤ ry + rh)

/-- `SelectionController.isPointInShape`, translated case by case from the
source.  The `free-draw` case is the source's
`for (let i = 0; i < points.length - 1; i++)` loop over consecutive point
pairs, rendered as a test over `points.zip points.tail`. -/
def isPointInShape (x y : ℚ) (shape : Shape) : Bool :=
  match shape with
  | .rect _ _ _ _ _ _ _ _ _ =>
      let b := getShapeBounds shape
      isPointInRectangle x y b.x b.y b.width b.height
  | .ellipse base radX radY _ _ _ _ =>
      let dx := x - base.x
      let dy := y - base.y
      decide ((dx * dx) / (radX * radX) + (dy * dy) / (radY * radY) ≤ 1)
  | .lineArrow _ base toX toY _ _ =>
      decide (distToSegSq ⟨x, y⟩ ⟨base.x, base.y⟩ ⟨toX, toY⟩ < 10 ^ 2)
  | .freeDraw _ points _ _ _ _ _ =>
      (points.zip points.tail).any
        (fun pq => decide (distToSegSq ⟨x, y⟩ pq.1 pq.2 < 10 ^ 2))
  | .text _ _ _ _ _ _ _ _ _ _ _ _ _ =>
      let b := getShapeBounds shape
      isPointInRectangle x y b.x b.y b.width b.height

/-! ### Selection controller state and operations -/

/-- Resize handle identifiers `'tl' | 'tr' | 'bl' | 'br'`. -/
inductive Handle where
  | tl | tr | bl | br
deriving DecidableEq

/-- The mutable fields of `SelectionController` (`ctx`/`canvas` are pure
render plumbing and carry no interaction state). -/
structure SelectionController where
  selectedShape : Option Shape
  isDragging : Bool
  isResizing : Bool
  dragStart : Point
  initialShapeState : Option Shape
  resizeHandle : Option Handle
deriving DecidableEq

/-- The controller as constructed: nothing selected, no active gesture. -/
def SelectionController.mkNew : SelectionController :=
  ⟨none, false, false, ⟨0, 0⟩, none, none⟩

/-- `setSelectedShape`. -/
def setSelectedShape (sc : SelectionController) (shape : Option Shape) :
    SelectionController :=
  { sc with selectedShape := shape }

/-- `startDragging(x, y)`: requires a selection, records the gesture-start
pointer and a deep copy of the selected shape (a value copy here). -/
def startDragging (sc : SelectionController) (x y : ℚ) : SelectionController :=
  match sc.selectedShape with
  | none => sc
  | some _ =>
      { sc with isDragging := true, dragStart := ⟨x, y⟩,
                initialShapeState := sc.selectedShape }

/-- The shape's `x`/`y` fields where present (`free-draw` has none). -/
def Shape.xyQ : Shape → Option (ℚ × ℚ)
  | .rect _ base _ _ _ _ _ _ _ => some (base.x, base.y)
  | .ellipse base _ _ _ _ _ _ => some (base.x, base.y)
  | .lineArrow _ base _ _ _ _ => some (base.x, base.y)
  | .text _ x y _ _ _ _ _ _ _ _ _ _ => some (x, y)
  | .freeDraw _ _ _ _ _ _ _ => none

/-- The shape's `toX`/`toY` fields, present only on line/arrow. -/
def Shape.toXYQ : Shape → Option (ℚ × ℚ)
  | .lineArrow _ _ toX toY _ _ => some (toX, toY)
  | _ => none

/-- The shape's `width`/`height` fields where present. -/
def Shape.whQ : Shape → Option (ℚ × ℚ)
  | .rect _ _ width height _ _ _ _ _ => some (width, height)
  | .text _ _ _ width height _ _ _ _ _ _ _ _ => some (width, height)
  | _ => none

/-- `s.type === "free-draw"` test. -/
def Shape.isFreeDraw : Shape → Bool
  | .freeDraw _ _ _ _ _ _ _ => true
  | _ => false

/-- `s.type === 'line' || s.type === 'arrow'` test. -/
def Shape.isLineOrArrow : Shape → Bool
  | .lineArrow _ _ _ _ _ _ => true
  | _ => false

/-- `s.type === 'rectangle' || s.type === 'diamond'` test. -/
def Shape.isRectOrDiamond : Shape → Bool
  | .rect _ _ _ _ _ _ _ _ _ => true
  | _ => false

/-- The assignments `s.x = nx; s.y = ny` on the variants that carry an
origin; the source only reaches them on non-free-draw shapes. -/
def setXY (s : Shape) (nx ny : ℚ) : Shape :=
  match s with
  | .rect kind base width height bgFill rounded ss rs fs =>
      .rect kind { base with x := nx, y := ny } width height bgFill rounded ss rs fs
  | .ellipse base radX radY bgFill ss rs fs =>
      .ellipse { base with x := nx, y := ny } radX radY bgFill ss rs fs
  | .lineArrow kind base toX toY ss rs =>
      .lineArrow kind { base with x := nx, y := ny } toX toY ss rs
  | .text id _ _ width height content fsz ff ta sf sw se bg =>
      .text id nx ny width height content fsz ff ta sf sw se bg
  | .freeDraw _ _ _ _ _ _ _ => s

/-- The assignments `s.toX = tx; s.toY = ty`, reached only on line/arrow. -/
def setToXY (s : Shape) (tx ty : ℚ) : Shape :=
  match s with
  | .lineArrow kind base _ _ ss rs => .lineArrow kind base tx ty ss rs
  | _ => s

/-- The body of `updateDragging` past its guards: the live shape `s` is
updated from the baseline `init` by the pointer delta `(dx, dy)`.  When the
live shape is line/arrow but the baseline carries no `toX`, the source's
`(init as any).toX + dx` is `undefined + dx = NaN`, a floating-point value
with no counterpart in this exact-arithmetic embedding; that branch leaves
the endpoint unchanged and no theorem below depends on it. -/
def dragShape (s init : Shape) (dx dy : ℚ) : Shape :=
  match s.isFreeDraw, init.isFreeDraw with
  | true, true =>
      match s, init with
      | .freeDraw id _ sf bf sw ss fs, .freeDraw _ ipts _ _ _ _ _ =>
          .freeDraw id (ipts.map fun p => ⟨p.x + dx, p.y + dy⟩) sf bf sw ss fs
      | _, _ => s
  | false, false =>
      match init.xyQ with
      | some ixy =>
          let s1 := setXY s (ixy.1 + dx) (ixy.2 + dy)
          if s.isLineOrArrow then
            match init.toXYQ with
            | some itxy => setToXY s1 (itxy.1 + dx) (itxy.2 + dy)
            | none => s1
          else s1
      | none => s
  | _, _ => s

/-- `updateDragging(x, y)`: no-op unless a drag is active with a selection
and a baseline; otherwise applies the total delta from `dragStart` to the
baseline. -/
def updateDragging (sc : SelectionController) (x y : ℚ) : SelectionController :=
  match sc.isDragging, sc.selectedShape, sc.initialShapeState with
  | true, some s, some init =>
      let s2 := dragShape s init (x - sc.dragStart.x) (y - sc.dragStart.y)
      { sc with selectedShape := some s2 }
  | _, _, _ => sc

/-- `stopDragging()`. -/
def stopDragging (sc : SelectionController) : SelectionController :=
  { sc with isDragging := false, initialShapeState := none }

/-- `getResizeHandleAtPoint(x, y, bounds)`: the first of the four corners
within the 10-unit tolerance, tested in the order tl, tr, bl, br. -/
def getResizeHandleAtPoint (x y : ℚ) (bounds : Bounds) : Option Handle :=
  if distSq ⟨x, y⟩ ⟨bounds.x, bounds.y⟩ < 10 ^ 2 then some .tl
  else if distSq ⟨x, y⟩ ⟨bounds.x + bounds.width, bounds.y⟩ < 10 ^ 2 then some .tr
  else if distSq ⟨x, y⟩ ⟨bounds.x, bounds.y + bounds.height⟩ < 10 ^ 2 then some .bl
  else if distSq ⟨x, y⟩ ⟨bounds.x + bounds.width, bounds.y + bounds.height⟩ < 10 ^ 2
    then some .br
  else none

/-- `startResizing(x, y)`: stores the handle under the pointer; only if one
was hit does it arm the resize gesture and snapshot the baseline. -/
def startResizing (sc : SelectionController) (x y : ℚ) : SelectionController :=
  match sc.selectedShape with
  | none => sc
  | some s =>
      let bounds := getShapeBounds s
      match getResizeHandleAtPoint x y bounds with
      | some h =>
          { sc with resizeHandle := some h, isResizing := true,
                    dragStart := ⟨x, y⟩, initialShapeState := some s }
      | none => { sc with resizeHandle := none }

/-- `updateResizing(x, y)`: no-op unless a resize is active with a selection,
a baseline and a handle; implemented only for rectangle/diamond with the
`br` handle, where the live width/height become the baseline width/height
plus the pointer delta.  When the baseline carries no `width` field the
source computes `undefined + dx = NaN`, which has no counterpart in this
exact-arithmetic embedding; that branch is left as a no-op and no theorem
below depends on it. -/
def updateResizing (sc : SelectionController) (x y : ℚ) : SelectionController :=
  match sc.isResizing, sc.selectedShape, sc.initialShapeState, sc.resizeHandle with
  | true, some s, some init, some handle =>
      match s with
      | .rect kind base _ _ bgFill rounded ss rs fs =>
          let dx := x - sc.dragStart.x
          let dy := y - sc.dragStart.y
          if handle = .br then
            match init.whQ with
            | some iwh =>
                let s2 : Shape :=
                  .rect kind base (iwh.1 + dx) (iwh.2 + dy) bgFill rounded ss rs fs
                { sc with selectedShape := some s2 }
            | none => sc
          else sc
      | _ => sc
  | _, _, _, _ => sc

/-- `stopResizing()`. -/
def stopResizing (sc : SelectionController) : SelectionController :=
  { sc with isResizing := false, resizeHandle := none, initialShapeState := none }

/-! ### Spec-side helpers used to state the claims -/

/-- Translation of a shape by `(dx, dy)`: origin for every variant that has
one, additionally the end point for line/arrow, and every point for
free-draw.  This is the spec-side notion "the shape at its baseline
position translated by `(dx, dy)`" against which dragging is compared. -/
def moveShape (dx dy : ℚ) : Shape → Shape
  | .rect kind base width height bgFill rounded ss rs fs =>
      .rect kind { base with x := base.x + dx, y := base.y + dy }
        width height bgFill rounded ss rs fs
  | .ellipse base radX radY bgFill ss rs fs =>
      .ellipse { base with x := base.x + dx, y := base.y + dy } radX radY bgFill ss rs fs
  | .lineArrow kind base toX toY ss rs =>
      .lineArrow kind { base with x := base.x + dx, y := base.y + dy }
        (toX + dx) (toY + dy) ss rs
  | .freeDraw id pts sf bf sw ss fs =>
      .freeDraw id (pts.map fun p => ⟨p.x + dx, p.y + dy⟩) sf bf sw ss fs
  | .text id x y width height content fsz ff ta sf sw se bg =>
      .text id (x + dx) (y + dy) width height content fsz ff ta sf sw se bg

/-- Every field of a shape except its positional ones (origin, line/arrow
end point, free-draw point list): the id, the variant tag, the extents and
all style and text fields, collected per variant. -/
inductive ShapeStyle where
  | rect (kind : RectKind) (id : String) (strokeWidth : StrokeWidth)
      (strokeFill : String) (strokeEdge : Option StrokeEdge) (width height : ℚ)
      (bgFill : String) (rounded : StrokeEdge) (strokeStyle : StrokeStyle)
      (roughStyle : RoughStyle) (fillStyle : FillStyle)
  | ellipse (id : String) (strokeWidth : StrokeWidth) (strokeFill : String)
      (strokeEdge : Option StrokeEdge) (radX radY : ℚ) (bgFill : String)
      (strokeStyle : StrokeStyle) (roughStyle : RoughStyle) (fillStyle : FillStyle)
  | lineArrow (kind : LineKind) (id : String) (strokeWidth : StrokeWidth)
      (strokeFill : String) (strokeEdge : Option StrokeEdge)
      (strokeStyle : StrokeStyle) (roughStyle : RoughStyle)
  | freeDraw (id : String) (strokeFill : String) (bgFill : String)
      (strokeWidth : StrokeWidth) (strokeStyle : StrokeStyle) (fillStyle : FillStyle)
  | text (id : String) (width height : ℚ) (content : String) (fontSize : FontSize)
      (fontFamily : FontFamily) (textAlign : TextAlign) (strokeFill : String)
      (strokeWidth : StrokeWidth) (strokeEdge : Option StrokeEdge)
      (bgFill : Option String)
deriving DecidableEq

/-- Projection of a shape onto its non-positional fields. -/
def Shape.nonPositional : Shape → ShapeStyle
  | .rect kind base width height bgFill rounded ss rs fs =>
      .rect kind base.id base.strokeWidth base.strokeFill base.strokeEdge
        width height bgFill rounded ss rs fs
  | .ellipse base radX radY bgFill ss rs fs =>
      .ellipse base.id base.strokeWidth base.strokeFill base.strokeEdge
        radX radY bgFill ss rs fs
  | .lineArrow kind base _ _ ss rs =>
      .lineArrow kind base.id base.strokeWidth base.strokeFill base.strokeEdge ss rs
  | .freeDraw id _ sf bf sw ss fs => .freeDraw id sf bf sw ss fs
  | .text id _ _ width height content fsz ff ta sf sw se bg =>
      .text id width height content fsz ff ta sf sw se bg

end Canvas

namespace Diagram

/-- `DiagramNode` from the diagram service (the fields the layout pass
reads). -/
structure DiagramNode where
  id : String
  content : String
  nodeType : String
  x : ℚ
  y : ℚ
  width : ℚ
  height : ℚ
deriving DecidableEq

/-- An entry of `occupiedRegions` in `convertSpecToShapes`. -/
structure Region where
  x : ℚ
  y : ℚ
  width : ℚ
  height : ℚ
deriving DecidableEq

/-- `MIN_SPACING_X` from `convertSpecToShapes`. -/
def MIN_SPACING_X : ℚ := 200

/-- `MIN_SPACING_Y` from `convertSpecToShapes`. -/
def MIN_SPACING_Y : ℚ := 150

/-- The overlap test of `convertSpecToShapes`: the candidate box at
`(fx, fy)` with extent `w × h`, expanded by the spacing margins, against
one occupied region. -/
def overlapsRegion (fx fy w h : ℚ) (r : Region) : Bool :=
  decide (fx < r.x + r.width + MIN_SPACING_X) &&
  decide (fx + w + MIN_SPACING_X > r.x) &&
  decide (fy < r.y + r.height + MIN_SPACING_Y) &&
  decide (fy + h + MIN_SPACING_Y > r.y)

/-- The `while (hasOverlap && attemptCount < maxAttempts)` loop of
`convertSpecToShapes` for one node: each iteration scans the occupied
regions; on a hit it displaces right by `MIN_SPACING_X + 50` while
`attemptCount < 3`, else down by `MIN_SPACING_Y + 50`, and retries.
`remaining` is `maxAttempts - attemptCount`, the structural fuel of the
loop; the top-level call uses `attemptCount = 0`, `remaining = 5`. -/
def placeNode (regions : List Region) (w h : ℚ) :
    ℚ → ℚ → ℕ → ℕ → ℚ × ℚ
  | fx, fy, _, 0 => (fx, fy)
  | fx, fy, attemptCount, remaining + 1 =>
      if regions.any (overlapsRegion fx fy w h) then
        if attemptCount < 3 then
          placeNode regions w h (fx + (MIN_SPACING_X + 50)) fy
            (attemptCount + 1) remaining
        else
          placeNode regions w h fx (fy + (MIN_SPACING_Y + 50))
            (attemptCount + 1) remaining
      else (fx, fy)

/-- The `spec.nodes.forEach` layout pass of `convertSpecToShapes`, carrying
the growing `occupiedRegions` array: each node's extent is clamped to at
least `80 × 50`, its position resolved by `placeNode` against the regions
placed so far, and the resulting region appended. -/
def resolveLayoutFrom (regions : List Region) : List DiagramNode → List Region
  | [] => regions
  | node :: rest =>
      let nodeWidth := max node.width 80
      let nodeHeight := max node.height 50
      let fp := placeNode regions nodeWidth nodeHeight node.x node.y 0 5
      resolveLayoutFrom (regions ++ [⟨fp.1, fp.2, nodeWidth, nodeHeight⟩]) rest

/-- The full first pass of `convertSpecToShapes`: the occupied regions in
node order (their `x`/`y` are the per-node layout positions stored in
`nodeMap`, before the uniform `offsetX`/`offsetY` shift). -/
def resolveLayout (nodes : List DiagramNode) : List Region :=
  resolveLayoutFrom [] nodes

end Diagram

namespace Canvas

/-! ## Theorems about the selection controller -/

/-- The corner of a bounding box a resize handle identifier stands for. -/
def corner (b : Bounds) : Handle → Point
  | .tl => ⟨b.x, b.y⟩
  | .tr => ⟨b.x + b.width, b.y⟩
  | .bl => ⟨b.x, b.y + b.height⟩
  | .br => ⟨b.x + b.width, b.y + b.height⟩

/-- "The point `(x, y)` lies within the fixed 10-unit tolerance of the
corner of `b` named by `h`" (Euclidean distance below 10, stated on
squares). -/
def nearCorner (x y : ℚ) (b : Bounds) (h : Handle) : Prop :=
  distSq ⟨x, y⟩ (corner b h) < 10 ^ 2

/-- C2: for a rectangle/diamond shape whose width or height is negative,
`getShapeBounds` returns the box whose origin is the true top-left corner
(the origin shifted by any negative extent) and whose extents are the
absolute values of the shape's extents. -/
theorem bounds_normalized (kind : RectKind) (base : ShapeBase) (width height : ℚ)
    (bgFill : String) (rounded : StrokeEdge) (ss : StrokeStyle) (rs : RoughStyle)
    (fs : FillStyle) (hneg : width < 0 ∨ height < 0) :
    getShapeBounds (.rect kind base width height bgFill rounded ss rs fs)
      = ⟨min base.x (base.x + width), min base.y (base.y + height),
         |width|, |height|⟩ := by
  clear hneg
  have hx : (if width ≥ 0 then base.x else base.x + width)
      = min base.x (base.x + width) := by
    split_ifs with hw
    · exact (min_eq_left (by linarith)).symm
    · exact (min_eq_right (by linarith)).symm
  have hy : (if height ≥ 0 then base.y else base.y + height)
      = min base.y (base.y + height) := by
    split_ifs with hh
    · exact (min_eq_left (by linarith)).symm
    · exact (min_eq_right (by linarith)).symm
  simp only [getShapeBounds, hx, hy]

/-- Witness for C2: the shape `{x:100, y:100, width:-50, height:-30}` gets
bounds `{x:50, y:70, width:50, height:30}`. -/
theorem bounds_normalized_witness :
    getShapeBounds (.rect .rectangle ⟨"r1", 100, 100, .w2, "#fff", none⟩
        (-50) (-30) "#000" .sharp .solid .r0 .hachure)
      = ⟨50, 70, 50, 30⟩ := by
  have h := bounds_normalized .rectangle ⟨"r1", 100, 100, .w2, "#fff", none⟩
    (-50) (-30) "#000" .sharp .solid .r0 .hachure (Or.inl (by norm_num))
  rw [h]
  norm_num

/-- The fold of `min` over a list is at most its seed. -/
theorem foldl_min_le_seed (f : Point → ℚ) :
    ∀ (ps : List Point) (a : ℚ), ps.foldl (fun m q => min m (f q)) a ≤ a := by
  intro ps
  induction ps with
  | nil => intro a; exact le_refl a
  | cons p ps ih =>
      intro a
      exact le_trans (ih (min a (f p))) (min_le_left _ _)

/-- The fold of `min` over a list is at most each listed value. -/
theorem foldl_min_le_mem (f : Point → ℚ) :
    ∀ (ps : List Point) (a : ℚ) (q : Point), q ∈ ps →
      ps.foldl (fun m q => min m (f q)) a ≤ f q := by
  intro ps
  induction ps with
  | nil => intro a q hq; cases hq
  | cons p ps ih =>
      intro a q hq
      rcases List.mem_cons.mp hq with h | h
      · subst h
        exact le_trans (foldl_min_le_seed f ps (min a (f q))) (min_le_right _ _)
      · exact ih (min a (f p)) q h

/-- The fold of `min` over a list is its seed or one of the listed values. -/
theorem foldl_min_attained (f : Point → ℚ) :
    ∀ (ps : List Point) (a : ℚ),
      ps.foldl (fun m q => min m (f q)) a = a ∨
      ∃ q ∈ ps, ps.foldl (fun m q => min m (f q)) a = f q := by
  intro ps
  induction ps with
  | nil => intro a; exact Or.inl rfl
  | cons p ps ih =>
      intro a
      rcases ih (min a (f p)) with h | ⟨q, hq, h⟩
      · rcases min_choice a (f p) with hm | hm
        · exact Or.inl (by rw [List.foldl_cons, h, hm])
        · exact Or.inr ⟨p, List.mem_cons_self p ps, by rw [List.foldl_cons, h, hm]⟩
      · exact Or.inr ⟨q, List.mem_cons_of_mem p hq, by rw [List.foldl_cons, h]⟩

/-- The fold of `max` over a list is at least its seed. -/
theorem foldl_max_ge_seed (f : Point → ℚ) :
    ∀ (ps : List Point) (a : ℚ), a ≤ ps.foldl (fun m q => max m (f q)) a := by
  intro ps
  induction ps with
  | nil => intro a; exact le_refl a
  | cons p ps ih =>
      intro a
      exact le_trans (le_max_left _ _) (ih (max a (f p)))

/-- The fold of `max` over a list is at least each listed value. -/
theorem foldl_max_ge_mem (f : Point → ℚ) :
    ∀ (ps : List Point) (a : ℚ) (q : Point), q ∈ ps →
      f q ≤ ps.foldl (fun m q => max m (f q)) a := by
  intro ps
  induction ps with
  | nil => intro a q hq; cases hq
  | cons p ps ih =>
      intro a q hq
      rcases List.mem_cons.mp hq with h | h
      · subst h
        exact le_trans (le_max_right _ _) (foldl_max_ge_seed f ps (max a (f q)))
      · exact ih (max a (f p)) q h

/-- The fold of `max` over a list is its seed or one of the listed values. -/
theorem foldl_max_attained (f : Point → ℚ) :
    ∀ (ps : List Point) (a : ℚ),
      ps.foldl (fun m q => max m (f q)) a = a ∨
      ∃ q ∈ ps, ps.foldl (fun m q => max m (f q)) a = f q := by
  intro ps
  induction ps with
  | nil => intro a; exact Or.inl rfl
  | cons p ps ih =>
      intro a
      rcases ih (max a (f p)) with h | ⟨q, hq, h⟩
      · rcases max_choice a (f p) with hm | hm
        · exact Or.inl (by rw [List.foldl_cons, h, hm])
        · exact Or.inr ⟨p, List.mem_cons_self p ps, by rw [List.foldl_cons, h, hm]⟩
      · exact Or.inr ⟨q, List.mem_cons_of_mem p hq, by rw [List.foldl_cons, h]⟩

/-- C7: free-draw bounds are the degenerate zero box at the origin for an
empty point list, and otherwise the axis-aligned box from the minimum to
the maximum coordinates over all points — every point lies inside the box
and each of its four sides is attained by some point; in particular the
points `[(0,0), (10,5), (-3,8)]` yield bounds `{x:-3, y:0, width:13,
height:8}`. -/
theorem freeDraw_bounds (id sf bf : String) (sw : StrokeWidth) (ss : StrokeStyle)
    (fs : FillStyle) (pts : List Point) (hne : pts ≠ []) :
    getShapeBounds (.freeDraw id [] sf bf sw ss fs) = ⟨0, 0, 0, 0⟩ ∧
    getShapeBounds (.freeDraw id [⟨0, 0⟩, ⟨10, 5⟩, ⟨-3, 8⟩] sf bf sw ss fs)
      = ⟨-3, 0, 13, 8⟩ ∧
    ((∀ p ∈ pts,
        (getShapeBounds (.freeDraw id pts sf bf sw ss fs)).x ≤ p.x ∧
        p.x ≤ (getShapeBounds (.freeDraw id pts sf bf sw ss fs)).x
                + (getShapeBounds (.freeDraw id pts sf bf sw ss fs)).width ∧
        (getShapeBounds (.freeDraw id pts sf bf sw ss fs)).y ≤ p.y ∧
        p.y ≤ (getShapeBounds (.freeDraw id pts sf bf sw ss fs)).y
                + (getShapeBounds (.freeDraw id pts sf bf sw ss fs)).height) ∧
      (∃ p ∈ pts, p.x = (getShapeBounds (.freeDraw id pts sf bf sw ss fs)).x) ∧
      (∃ p ∈ pts, p.x = (getShapeBounds (.freeDraw id pts sf bf sw ss fs)).x
                + (getShapeBounds (.freeDraw id pts sf bf sw ss fs)).width) ∧
      (∃ p ∈ pts, p.y = (getShapeBounds (.freeDraw id pts sf bf sw ss fs)).y) ∧
      (∃ p ∈ pts, p.y = (getShapeBounds (.freeDraw id pts sf bf sw ss fs)).y
                + (getShapeBounds (.freeDraw id pts sf bf sw ss fs)).height)) := by
  refine ⟨rfl, by norm_num [getShapeBounds], ?_⟩
  match pts, hne with
  | p :: ps, _ =>
    have hb : getShapeBounds (.freeDraw id (p :: ps) sf bf sw ss fs)
        = ⟨ps.foldl (fun m q => min m q.x) p.x,
           ps.foldl (fun m q => min m q.y) p.y,
           ps.foldl (fun m q => max m q.x) p.x
             - ps.foldl (fun m q => min m q.x) p.x,
           ps.foldl (fun m q => max m q.y) p.y
             - ps.foldl (fun m q => min m q.y) p.y⟩ := rfl
    rw [hb]
    dsimp only
    constructor
    · intro q hq
      have h1 : ps.foldl (fun m r => min m r.x) p.x ≤ q.x := by
        rcases List.mem_cons.mp hq with h | h
        · subst h; exact foldl_min_le_seed (fun r => r.x) ps q.x
        · exact foldl_min_le_mem (fun r => r.x) ps p.x q h
      have h2 : q.x ≤ ps.foldl (fun m r => max m r.x) p.x := by
        rcases List.mem_cons.mp hq with h | h
        · subst h; exact foldl_max_ge_seed (fun r => r.x) ps q.x
        · exact foldl_max_ge_mem (fun r => r.x) ps p.x q h
      have h3 : ps.foldl (fun m r => min m r.y) p.y ≤ q.y := by
        rcases List.mem_cons.mp hq with h | h
        · subst h; exact foldl_min_le_seed (fun r => r.y) ps q.y
        · exact foldl_min_le_mem (fun r => r.y) ps p.y q h
      have h4 : q.y ≤ ps.foldl (fun m r => max m r.y) p.y := by
        rcases List.mem_cons.mp hq with h | h
        · subst h; exact foldl_max_ge_seed (fun r => r.y) ps q.y
        · exact foldl_max_ge_mem (fun r => r.y) ps p.y q h
      exact ⟨h1, by linarith, h3, by linarith⟩
    · refine ⟨?_, ?_, ?_, ?_⟩
      · rcases foldl_min_attained (fun r => r.x) ps p.x with h | ⟨q, hq, h⟩
        · exact ⟨p, List.mem_cons_self _ _, h.symm⟩
        · exact ⟨q, List.mem_cons_of_mem _ hq, h.symm⟩
      · rcases foldl_max_attained (fun r => r.x) ps p.x with h | ⟨q, hq, h⟩
        · exact ⟨p, List.mem_cons_self _ _, by linarith⟩
        · exact ⟨q, List.mem_cons_of_mem _ hq, by linarith⟩
      · rcases foldl_min_attained (fun r => r.y) ps p.y with h | ⟨q, hq, h⟩
        · exact ⟨p, List.mem_cons_self _ _, h.symm⟩
        · exact ⟨q, List.mem_cons_of_mem _ hq, h.symm⟩
      · rcases foldl_max_attained (fun r => r.y) ps p.y with h | ⟨q, hq, h⟩
        · exact ⟨p, List.mem_cons_self _ _, by linarith⟩
        · exact ⟨q, List.mem_cons_of_mem _ hq, by linarith⟩

/-- Witness for C7 at the point list `[(0,0), (10,5), (-3,8)]`. -/
theorem freeDraw_bounds_witness :
    getShapeBounds (.freeDraw "f" ([] : List Point) "#fff" "#000" .w1 .solid .hachure)
      = ⟨0, 0, 0, 0⟩ ∧
    getShapeBounds (.freeDraw "f" [⟨0, 0⟩, ⟨10, 5⟩, ⟨-3, 8⟩] "#fff" "#000" .w1 .solid .hachure)
      = ⟨-3, 0, 13, 8⟩ :=
  have h := freeDraw_bounds "f" "#fff" "#000" .w1 .solid .hachure
    [⟨0, 0⟩, ⟨10, 5⟩, ⟨-3, 8⟩] (by simp)
  ⟨h.1, h.2.1⟩

/-- C8: `stopDragging` and `stopResizing` are idempotent — a second call
leaves the controller exactly where the first left it — the first call
clears the dragging (resp. resizing) flag, releases the baseline snapshot,
`stopResizing` clears the active handle, and neither call touches the
selected shape. -/
theorem stop_gestures_idempotent (sc : SelectionController) :
    stopDragging (stopDragging sc) = stopDragging sc ∧
    stopResizing (stopResizing sc) = stopResizing sc ∧
    (stopDragging sc).isDragging = false ∧
    (stopDragging sc).initialShapeState = none ∧
    (stopDragging sc).selectedShape = sc.selectedShape ∧
    (stopResizing sc).isResizing = false ∧
    (stopResizing sc).resizeHandle = none ∧
    (stopResizing sc).initialShapeState = none ∧
    (stopResizing sc).selectedShape = sc.selectedShape := by
  refine ⟨rfl, rfl, rfl, rfl, rfl, rfl, rfl, rfl, rfl⟩

/-- C10: a free-draw shape with fewer than two points is never hit: the
polyline hit test only examines consecutive point pairs, of which such a
shape has none. -/
theorem freeDraw_short_never_hit (x y : ℚ) (id sf bf : String) (sw : StrokeWidth)
    (ss : StrokeStyle) (fs : FillStyle) (pts : List Point)
    (hlen : pts.length < 2) :
    isPointInShape x y (.freeDraw id pts sf bf sw ss fs) = false := by
  match pts with
  | [] => rfl
  | [p] => rfl
  | p :: q :: ps => simp at hlen; omega

/-- C6: `getResizeHandleAtPoint` answers a handle only when the point lies
within the fixed 10-unit tolerance of that handle's corner, and answers
`none` exactly when the point is within tolerance of no corner; on bounds
`{x:0, y:0, width:100, height:100}` the point `(0,0)` yields `tl`,
`(100,100)` yields `br` and `(50,50)` yields `null`. -/
theorem resize_handle_detection (x y : ℚ) (b : Bounds) :
    (∀ h : Handle, getResizeHandleAtPoint x y b = some h → nearCorner x y b h) ∧
    (getResizeHandleAtPoint x y b = none ↔ ∀ h : Handle, ¬ nearCorner x y b h) ∧
    getResizeHandleAtPoint 0 0 ⟨0, 0, 100, 100⟩ = some .tl ∧
    getResizeHandleAtPoint 100 100 ⟨0, 0, 100, 100⟩ = some .br ∧
    getResizeHandleAtPoint 50 50 ⟨0, 0, 100, 100⟩ = none := by
  refine ⟨?_, ?_, by norm_num [getResizeHandleAtPoint, distSq],
    by norm_num [getResizeHandleAtPoint, distSq],
    by norm_num [getResizeHandleAtPoint, distSq]⟩
  · intro h hh
    simp only [getResizeHandleAtPoint] at hh
    split_ifs at hh with h1 h2 h3 h4
    · injection hh with hh; subst hh; exact h1
    · injection hh with hh; subst hh; exact h2
    · injection hh with hh; subst hh; exact h3
    · injection hh with hh; subst hh; exact h4
  · simp only [getResizeHandleAtPoint]
    split_ifs with h1 h2 h3 h4
    · exact iff_of_false (by simp) (fun hall => (hall .tl) h1)
    · exact iff_of_false (by simp) (fun hall => (hall .tr) h2)
    · exact iff_of_false (by simp) (fun hall => (hall .bl) h3)
    · exact iff_of_false (by simp) (fun hall => (hall .br) h4)
    · refine iff_of_true rfl ?_
      intro h
      cases h with
      | tl => exact h1
      | tr => exact h2
      | bl => exact h3
      | br => exact h4

/-- C3: with no selected shape, or with neither gesture active, the
mutating operations are safe: `updateDragging` and `updateResizing` leave
the whole controller state unchanged, and `stopDragging`/`stopResizing`
never touch the selected shape (in this total embedding no operation can
throw). -/
theorem noop_safety (sc : SelectionController) (x y : ℚ)
    (h : sc.selectedShape = none ∨ (sc.isDragging = false ∧ sc.isResizing = false)) :
    updateDragging sc x y = sc ∧
    updateResizing sc x y = sc ∧
    (stopDragging sc).selectedShape = sc.selectedShape ∧
    (stopResizing sc).selectedShape = sc.selectedShape := by
  refine ⟨?_, ?_, rfl, rfl⟩
  · rcases h with hsel | ⟨hd, _⟩
    · simp [updateDragging, hsel]
    · simp [updateDragging, hd]
  · rcases h with hsel | ⟨_, hr⟩
    · simp [updateResizing, hsel]
    · simp [updateResizing, hr]

/-- Witness for C3: a controller with no selection (and a stray armed
gesture) is left fully unchanged by both update operations. -/
theorem noop_safety_witness :
    updateDragging ⟨none, true, true, ⟨1, 2⟩, none, some .br⟩ 7 9
      = ⟨none, true, true, ⟨1, 2⟩, none, some .br⟩ ∧
    updateResizing ⟨none, true, true, ⟨1, 2⟩, none, some .br⟩ 7 9
      = ⟨none, true, true, ⟨1, 2⟩, none, some .br⟩ :=
  have h := noop_safety ⟨none, true, true, ⟨1, 2⟩, none, some .br⟩ 7 9 (Or.inl rfl)
  ⟨h.1, h.2.1⟩

/-- C4: with an active resize gesture, `updateResizing` acts only on a
rectangle/diamond selection with the bottom-right handle, setting the live
width/height to the baseline width/height plus the pointer delta from
gesture start; for any other selected variant, or any other active handle,
the selected shape is left entirely unchanged. -/
theorem resize_semantics (sc : SelectionController) (x y : ℚ) (s i : Shape)
    (hres : sc.isResizing = true) (hsel : sc.selectedShape = some s)
    (hinit : sc.initialShapeState = some i) :
    (∀ kind base width height bgFill rounded ss rs fs iw ih,
        s = .rect kind base width height bgFill rounded ss rs fs →
        sc.resizeHandle = some .br → i.whQ = some (iw, ih) →
        (updateResizing sc x y).selectedShape
          = some (.rect kind base (iw + (x - sc.dragStart.x))
              (ih + (y - sc.dragStart.y)) bgFill rounded ss rs fs)) ∧
    ((s.isRectOrDiamond = false ∨ sc.resizeHandle ≠ some .br) →
        (updateResizing sc x y).selectedShape = some s) := by
  constructor
  · intro kind base width height bgFill rounded ss rs fs iw ih hs hbr hwh
    subst hs
    simp [updateResizing, hres, hsel, hinit, hbr, hwh]
  · intro hng
    rcases hother : sc.resizeHandle with _ | handle
    · simp [updateResizing, hres, hsel, hinit, hother]
    · rcases hng with hnr | hnbr
      · cases s <;> simp_all [updateResizing, Shape.isRectOrDiamond,
          hres, hsel, hinit, hother]
      · have hno : ¬ handle = Handle.br := fun hq => hnbr (by rw [hother, hq])
        cases s <;> simp_all [updateResizing, hres, hsel, hinit, hother]

/-- Witness for C4: resizing a 40×40 rectangle from drag start `(0,0)` to
`(5,7)` with the `br` handle gives extent `45×47`; with the `tl` handle the
shape is unchanged. -/
theorem resize_semantics_witness :
    (updateResizing
        ⟨some (.rect .rectangle ⟨"r", 0, 0, .w2, "#fff", none⟩ 40 40 "#000" .sharp .solid .r0 .hachure),
         false, true, ⟨0, 0⟩,
         some (.rect .rectangle ⟨"r", 0, 0, .w2, "#fff", none⟩ 40 40 "#000" .sharp .solid .r0 .hachure),
         some .br⟩ 5 7).selectedShape
      = some (.rect .rectangle ⟨"r", 0, 0, .w2, "#fff", none⟩ 45 47 "#000" .sharp .solid .r0 .hachure) ∧
    (updateResizing
        ⟨some (.rect .rectangle ⟨"r", 0, 0, .w2, "#fff", none⟩ 40 40 "#000" .sharp .solid .r0 .hachure),
         false, true, ⟨0, 0⟩,
         some (.rect .rectangle ⟨"r", 0, 0, .w2, "#fff", none⟩ 40 40 "#000" .sharp .solid .r0 .hachure),
         some .tl⟩ 5 7).selectedShape
      = some (.rect .rectangle ⟨"r", 0, 0, .w2, "#fff", none⟩ 40 40 "#000" .sharp .solid .r0 .hachure) := by
  constructor
  · have h := resize_semantics
      ⟨some (.rect .rectangle ⟨"r", 0, 0, .w2, "#fff", none⟩ 40 40 "#000" .sharp .solid .r0 .hachure),
       false, true, ⟨0, 0⟩,
       some (.rect .rectangle ⟨"r", 0, 0, .w2, "#fff", none⟩ 40 40 "#000" .sharp .solid .r0 .hachure),
       some .br⟩ 5 7
      (.rect .rectangle ⟨"r", 0, 0, .w2, "#fff", none⟩ 40 40 "#000" .sharp .solid .r0 .hachure)
      (.rect .rectangle ⟨"r", 0, 0, .w2, "#fff", none⟩ 40 40 "#000" .sharp .solid .r0 .hachure)
      rfl rfl rfl
    have h2 := h.1 .rectangle ⟨"r", 0, 0, .w2, "#fff", none⟩ 40 40 "#000" .sharp .solid
      .r0 .hachure 40 40 rfl rfl rfl
    rw [h2]
    norm_num
  · have h := resize_semantics
      ⟨some (.rect .rectangle ⟨"r", 0, 0, .w2, "#fff", none⟩ 40 40 "#000" .sharp .solid .r0 .hachure),
       false, true, ⟨0, 0⟩,
       some (.rect .rectangle ⟨"r", 0, 0, .w2, "#fff", none⟩ 40 40 "#000" .sharp .solid .r0 .hachure),
       some .tl⟩ 5 7
      (.rect .rectangle ⟨"r", 0, 0, .w2, "#fff", none⟩ 40 40 "#000" .sharp .solid .r0 .hachure)
      (.rect .rectangle ⟨"r", 0, 0, .w2, "#fff", none⟩ 40 40 "#000" .sharp .solid .r0 .hachure)
      rfl rfl rfl
    exact h.2 (Or.inr (by simp))

/-- A sequence of `updateDragging` calls, applied left to right. -/
def applyDrags (sc : SelectionController) (moves : List (ℚ × ℚ)) :
    SelectionController :=
  moves.foldl (fun c m => updateDragging c m.1 m.2) sc

/-- Translating a shape by `(0, 0)` is the identity. -/
theorem moveShape_zero (s : Shape) : moveShape 0 0 s = s := by
  cases s <;> simp [moveShape]

/-- One `updateDragging` body applied to a translated copy of the baseline
lands exactly on the baseline translated by the new delta: positions are
re-derived from the baseline, not accumulated. -/
theorem dragShape_moveShape (s : Shape) (a b dx dy : ℚ) :
    dragShape (moveShape a b s) s dx dy = moveShape dx dy s := by
  cases s <;>
    simp [dragShape, moveShape, setXY, setToXY, Shape.isFreeDraw,
      Shape.isLineOrArrow, Shape.xyQ, Shape.toXYQ]

/-- Invariant of a drag gesture: from a state whose baseline is `s`, whose
gesture start is recorded, and whose live shape is some translate of `s`,
any sequence of `updateDragging` calls leaves the controller unchanged
except that the live shape is still some translate of `s`. -/
theorem applyDrags_translate (s : Shape) (moves : List (ℚ × ℚ)) :
    ∀ (c : SelectionController) (a b : ℚ),
      c.isDragging = true → c.initialShapeState = some s →
      c.selectedShape = some (moveShape a b s) →
      ∃ a2 b2, applyDrags c moves
        = { c with selectedShape := some (moveShape a2 b2 s) } := by
  induction moves with
  | nil =>
      intro c a b _ _ hsel
      refine ⟨a, b, ?_⟩
      cases c
      simp only at hsel
      simp [applyDrags, hsel]
  | cons m rest ih =>
      intro c a b hd hinit hsel
      have hstep : updateDragging c m.1 m.2
          = { c with
              selectedShape := some (moveShape (m.1 - c.dragStart.x) (m.2 - c.dragStart.y) s) } := by
        simp [updateDragging, hd, hinit, hsel, dragShape_moveShape]
      have happ : applyDrags c (m :: rest)
          = applyDrags (updateDragging c m.1 m.2) rest := rfl
      rw [happ, hstep]
      rcases ih
          { c with
            selectedShape := some (moveShape (m.1 - c.dragStart.x) (m.2 - c.dragStart.y) s) }
          (m.1 - c.dragStart.x) (m.2 - c.dragStart.y) hd hinit rfl with ⟨a2, b2, h2⟩
      exact ⟨a2, b2, h2⟩

/-- C1: after `startDragging(x0, y0)` on a selected shape, any sequence of
intermediate `updateDragging` calls followed by `updateDragging(x, y)`
leaves the shape exactly at its baseline position translated by
`(x - x0, y - y0)`, independent of the intermediate calls; in particular a
zero-delta final call (`x = x0`, `y = y0`) leaves the shape at its baseline
position. -/
theorem drag_path_independence (sc : SelectionController) (s : Shape)
    (x0 y0 : ℚ) (moves : List (ℚ × ℚ)) (x y : ℚ)
    (hsel : sc.selectedShape = some s) :
    (updateDragging (applyDrags (startDragging sc x0 y0) moves) x y).selectedShape
      = some (moveShape (x - x0) (y - y0) s) ∧
    (updateDragging (applyDrags (startDragging sc x0 y0) moves) x0 y0).selectedShape
      = some s := by
  have hstart : startDragging sc x0 y0
      = { sc with isDragging := true, dragStart := ⟨x0, y0⟩,
                  initialShapeState := some s } := by
    simp [startDragging, hsel]
  have hkey : ∀ u v : ℚ,
      (updateDragging (applyDrags (startDragging sc x0 y0) moves) u v).selectedShape
        = some (moveShape (u - x0) (v - y0) s) := by
    intro u v
    rcases applyDrags_translate s moves (startDragging sc x0 y0) 0 0
        (by rw [hstart]) (by rw [hstart])
        (by rw [hstart]; simp [moveShape_zero, hsel]) with ⟨a2, b2, h2⟩
    rw [h2, hstart]
    simp [updateDragging, dragShape_moveShape]
  refine ⟨hkey x y, ?_⟩
  rw [hkey x0 y0]
  simp [moveShape_zero]

/-- Witness for C1: dragging a 40×40 rectangle at `(0,0)` from gesture
start `(10,10)` through two stray intermediate updates to `(30,10)` puts it
at `(20,0)`; ending at `(10,10)` (zero delta) leaves it at `(0,0)`. -/
theorem drag_path_independence_witness :
    (updateDragging
        (applyDrags
          (startDragging
            ⟨some (.rect .rectangle ⟨"r", 0, 0, .w2, "#fff", none⟩ 40 40 "#000" .sharp .solid .r0 .hachure),
             false, false, ⟨0, 0⟩, none, none⟩ 10 10)
          [(17, 3), (100, -5)]) 30 10).selectedShape
      = some (.rect .rectangle ⟨"r", 20, 0, .w2, "#fff", none⟩ 40 40 "#000" .sharp .solid .r0 .hachure) ∧
    (updateDragging
        (applyDrags
          (startDragging
            ⟨some (.rect .rectangle ⟨"r", 0, 0, .w2, "#fff", none⟩ 40 40 "#000" .sharp .solid .r0 .hachure),
             false, false, ⟨0, 0⟩, none, none⟩ 10 10)
          [(17, 3), (100, -5)]) 10 10).selectedShape
      = some (.rect .rectangle ⟨"r", 0, 0, .w2, "#fff", none⟩ 40 40 "#000" .sharp .solid .r0 .hachure) := by
  have h := drag_path_independence
    ⟨some (.rect .rectangle ⟨"r", 0, 0, .w2, "#fff", none⟩ 40 40 "#000" .sharp .solid .r0 .hachure),
     false, false, ⟨0, 0⟩, none, none⟩
    (.rect .rectangle ⟨"r", 0, 0, .w2, "#fff", none⟩ 40 40 "#000" .sharp .solid .r0 .hachure)
    10 10 [(17, 3), (100, -5)] 30 10 rfl
  refine ⟨?_, h.2⟩
  rw [h.1]
  norm_num [moveShape]

/-- `setXY` never touches the non-positional fields. -/
theorem nonPositional_setXY (s : Shape) (nx ny : ℚ) :
    (setXY s nx ny).nonPositional = s.nonPositional := by
  cases s <;> simp [setXY, Shape.nonPositional]

/-- `setToXY` never touches the non-positional fields. -/
theorem nonPositional_setToXY (s : Shape) (tx ty : ℚ) :
    (setToXY s tx ty).nonPositional = s.nonPositional := by
  cases s <;> simp [setToXY, Shape.nonPositional]

/-- The `updateDragging` body only moves positional fields, whatever the
baseline. -/
theorem nonPositional_dragShape (s i : Shape) (dx dy : ℚ) :
    (dragShape s i dx dy).nonPositional = s.nonPositional := by
  cases s <;> cases i <;>
    simp [dragShape, Shape.isFreeDraw, Shape.isLineOrArrow, Shape.xyQ,
      Shape.toXYQ, setXY, setToXY, Shape.nonPositional]

/-- C9: with an active drag, `updateDragging` changes only the positional
fields of the selected shape — its id, variant tag, extents, style, text
and font fields (the whole non-positional projection) are unchanged. -/
theorem drag_frame_property (sc : SelectionController) (s : Shape) (x y : ℚ)
    (hdrag : sc.isDragging = true) (hsel : sc.selectedShape = some s) :
    ∃ s2, (updateDragging sc x y).selectedShape = some s2 ∧
      s2.nonPositional = s.nonPositional := by
  rcases hinit : sc.initialShapeState with _ | i
  · refine ⟨s, ?_, rfl⟩
    simp [updateDragging, hdrag, hsel, hinit]
  · refine ⟨dragShape s i (x - sc.dragStart.x) (y - sc.dragStart.y), ?_, ?_⟩
    · simp [updateDragging, hdrag, hsel, hinit]
    · exact nonPositional_dragShape s i _ _

/-- Witness for C9: dragging a line from `(0,0)–(5,5)` keeps its id, tag
and style fields. -/
theorem drag_frame_property_witness :
    ∃ s2, (updateDragging
        ⟨some (.lineArrow .line ⟨"l", 0, 0, .w1, "#abc", none⟩ 5 5 .dashed .r1),
         true, false, ⟨0, 0⟩,
         some (.lineArrow .line ⟨"l", 0, 0, .w1, "#abc", none⟩ 5 5 .dashed .r1),
         none⟩ 3 4).selectedShape = some s2 ∧
      s2.nonPositional
        = (Shape.lineArrow .line ⟨"l", 0, 0, .w1, "#abc", none⟩ 5 5 .dashed .r1).nonPositional :=
  drag_frame_property
    ⟨some (.lineArrow .line ⟨"l", 0, 0, .w1, "#abc", none⟩ 5 5 .dashed .r1),
     true, false, ⟨0, 0⟩,
     some (.lineArrow .line ⟨"l", 0, 0, .w1, "#abc", none⟩ 5 5 .dashed .r1),
     none⟩
    (.lineArrow .line ⟨"l", 0, 0, .w1, "#abc", none⟩ 5 5 .dashed .r1)
    3 4 rfl rfl

/-- Witness for C10: the query point equal to the shape's single point is
still not a hit. -/
theorem freeDraw_short_never_hit_witness :
    ([(⟨3, 4⟩ : Point)].length < 2) ∧
    isPointInShape 3 4 (.freeDraw "f" [⟨3, 4⟩] "#fff" "#000" .w1 .solid .hachure)
      = false :=
  ⟨by norm_num,
   freeDraw_short_never_hit 3 4 "f" "#fff" "#000" .w1 .solid .hachure
     [⟨3, 4⟩] (by norm_num)⟩

end Canvas

namespace Diagram

/-! ## Theorems about the diagram layout pass -/

/-- A 100×60 node requested at the origin. -/
def nodeA : DiagramNode := ⟨"a", "A", "rectangle", 0, 0, 100, 60⟩

/-- A second 100×60 node requested at the same origin. -/
def nodeB : DiagramNode := ⟨"b", "B", "rectangle", 0, 0, 100, 60⟩

/-- Counterexample to C5 as stated: two identical 100×60 nodes requested at
the origin resolve to `(0,0)` and `(500,0)` — the second node was displaced
twice by 250 units — yet no sequence of at most 5 displacements in the
claimed fixed 200×150-unit steps can move a node from `(0,0)` to
`(500,0)`. -/
theorem layout_step_size_counterexample :
    resolveLayout [nodeA, nodeB] = [⟨0, 0, 100, 60⟩, ⟨500, 0, 100, 60⟩] ∧
    ∀ a : ℕ, a < 6 → ∀ b : ℕ, b < 6 →
      ¬ (nodeA.x + 200 * (a : ℚ) = 500 ∧ nodeA.y + 150 * (b : ℚ) = 0) := by
  constructor
  · norm_num [resolveLayout, resolveLayoutFrom, placeNode, overlapsRegion,
      MIN_SPACING_X, MIN_SPACING_Y, nodeA, nodeB]
  · intro a ha b hb hcontra
    have hx : (200 : ℚ) * (a : ℚ) = 500 := by
      have := hcontra.1
      simp only [nodeA] at this
      linarith
    interval_cases a <;> norm_num at hx

/-- The while loop of the layout pass: its result is its entry position
displaced rightward `a` times by `MIN_SPACING_X + 50` and downward `b`
times by `MIN_SPACING_Y + 50`, where rightward displacements happen only at
attempt counts below 3, displacements total at most the fuel, and a
downward displacement implies the attempt count had reached 3. -/
theorem placeNode_spec (regions : List Region) (w h : ℚ) :
    ∀ (fuel attemptCount : ℕ) (fx fy : ℚ),
      ∃ a b : ℕ,
        placeNode regions w h fx fy attemptCount fuel
          = (fx + (MIN_SPACING_X + 50) * (a : ℚ), fy + (MIN_SPACING_Y + 50) * (b : ℚ)) ∧
        a ≤ 3 - attemptCount ∧ a + b ≤ fuel ∧ (0 < b → 3 ≤ attemptCount + a) := by
  intro fuel
  induction fuel with
  | zero =>
      intro attemptCount fx fy
      refine ⟨0, 0, ?_, by omega, by omega, by omega⟩
      simp [placeNode]
  | succ fuel ih =>
      intro attemptCount fx fy
      rw [placeNode]
      by_cases hov : regions.any (overlapsRegion fx fy w h)
      · rw [if_pos hov]
        by_cases hac : attemptCount < 3
        · rw [if_pos hac]
          rcases ih (attemptCount + 1) (fx + (MIN_SPACING_X + 50)) fy with
            ⟨a, b, heq, ha, hab, hdown⟩
          refine ⟨a + 1, b, ?_, by omega, by omega, by omega⟩
          rw [heq]
          exact Prod.ext (by push_cast; ring) (by push_cast; ring)
        · rw [if_neg hac]
          rcases ih (attemptCount + 1) fx (fy + (MIN_SPACING_Y + 50)) with
            ⟨a, b, heq, ha, hab, hdown⟩
          have ha0 : a = 0 := by omega
          subst ha0
          refine ⟨0, b + 1, ?_, by omega, by omega, by omega⟩
          rw [heq]
          exact Prod.ext (by push_cast; ring) (by push_cast; ring)
      · rw [if_neg hov]
        refine ⟨0, 0, ?_, by omega, by omega, by omega⟩
        exact Prod.ext (by push_cast; ring) (by push_cast; ring)

/-- The layout pass, from any starting region list, appends one region per
node whose position is the node's requested position displaced per
`placeNode_spec` with fuel 5 from attempt count 0. -/
theorem resolveLayoutFrom_spec :
    ∀ (nodes : List DiagramNode) (regions : List Region),
      ∃ L, resolveLayoutFrom regions nodes = regions ++ L ∧
        List.Forall₂ (fun (node : DiagramNode) (r : Region) =>
          ∃ a b : ℕ, a ≤ 3 ∧ a + b ≤ 5 ∧ (0 < b → a = 3) ∧
            r = ⟨node.x + (MIN_SPACING_X + 50) * (a : ℚ),
                 node.y + (MIN_SPACING_Y + 50) * (b : ℚ),
                 max node.width 80, max node.height 50⟩) nodes L := by
  intro nodes
  induction nodes with
  | nil =>
      intro regions
      exact ⟨[], by simp [resolveLayoutFrom], List.Forall₂.nil⟩
  | cons node rest ih =>
      intro regions
      rcases placeNode_spec regions (max node.width 80) (max node.height 50)
          5 0 node.x node.y with ⟨a, b, heq, ha, hab, hdown⟩
      rcases ih (regions ++
          [⟨(placeNode regions (max node.width 80) (max node.height 50) node.x node.y 0 5).1,
            (placeNode regions (max node.width 80) (max node.height 50) node.x node.y 0 5).2,
            max node.width 80, max node.height 50⟩]) with ⟨L, hL, hF⟩
      refine ⟨⟨(placeNode regions (max node.width 80) (max node.height 50) node.x node.y 0 5).1,
               (placeNode regions (max node.width 80) (max node.height 50) node.x node.y 0 5).2,
               max node.width 80, max node.height 50⟩ :: L, ?_, ?_⟩
      · rw [resolveLayoutFrom, hL, List.append_assoc]
        rfl
      · refine List.Forall₂.cons ⟨a, b, by omega, by omega, by omega, ?_⟩ hF
        rw [heq]

/-- C5 (amended): each node of a diagram spec is placed at its requested
coordinates displaced rightward `a` times and then downward `b` times, in
fixed steps of `MIN_SPACING_X + 50 = 250` units rightward and
`MIN_SPACING_Y + 50 = 200` units downward, with `a ≤ 3`, at most 5 total
displacements, and downward displacement only after the 3 rightward
attempts are exhausted; its stored region keeps the node's extent clamped
to at least 80×50. -/
theorem layout_displacement (nodes : List DiagramNode) :
    List.Forall₂ (fun (node : DiagramNode) (r : Region) =>
      ∃ a b : ℕ, a ≤ 3 ∧ a + b ≤ 5 ∧ (0 < b → a = 3) ∧
        r = ⟨node.x + (MIN_SPACING_X + 50) * (a : ℚ),
             node.y + (MIN_SPACING_Y + 50) * (b : ℚ),
             max node.width 80, max node.height 50⟩) nodes (resolveLayout nodes) := by
  rcases resolveLayoutFrom_spec nodes [] with ⟨L, hL, hF⟩
  rw [resolveLayout, hL]
  simpa using hF

end Diagram
